import Mathlib

/-!
Verification of the ChessGPT position-similarity index and study-ranking
engine: a shallow embedding of the core of `backend/fen_processor.py` and
`backend/fen_retriever.py`, followed by theorems about the encoder, the
naive similarity matcher and the study ranker.
-/

namespace ChessGPT

/-- One corpus position record, as built by `process_single_study_data`:
a Python dict with keys `dotted_fen`, `study_id`, `chapter`, `ply` and
`original_fen`. -/
structure FenRecord where
  dotted_fen : String
  study_id : String
  chapter : String
  ply : Nat
  original_fen : String
  deriving DecidableEq, Repr

/-- Embedding of `convert_fen_to_dotted_pieces` (`fen_processor.py` lines
15-26; the copy in `fen_retriever.py` lines 10-21 is identical): on the
empty string return the empty string, otherwise take the piece-placement
field (the text before the first space), expand each digit `d` into `d`
placeholder dots, and copy every other character verbatim.  Python
`char.isdigit()` is modelled by ASCII `Char.isDigit` and `int(char)` by
`c.toNat - 48`, which agree on the ASCII digits occurring in FEN text. -/
def convert_fen_to_dotted_pieces (full_fen_string : String) : String :=
  if full_fen_string = "" then ""
  else
    let piece_placement := full_fen_string.toList.takeWhile fun c => c != ' '
    String.mk (piece_placement.flatMap fun c =>
      if c.isDigit then List.replicate (c.toNat - 48) '.' else [c])

/-- Cell-by-cell tail of one row update of the Wagner-Fischer dynamic
program for exact Levenshtein distance: `diag` is the previous-row cell one
column to the left, `left` the freshly computed cell, and the remaining
previous-row cells are consumed in step with the remaining characters of
the second string. -/
def levAux (x : Char) : List Char → Nat → Nat → List Nat → List Nat
  | [], _, _, _ => []
  | _ :: _, _, _, [] => []
  | y :: ys, diag, left, r :: rs =>
    let cost : Nat := if x = y then 0 else 1
    let cell := min (min (r + 1) (left + 1)) (diag + cost)
    cell :: levAux x ys r cell rs

/-- One full row update of the Wagner-Fischer dynamic program. -/
def levRow (b : List Char) (row : List Nat) (x : Char) : List Nat :=
  match row with
  | [] => []
  | r0 :: rs => (r0 + 1) :: levAux x b r0 (r0 + 1) rs

/-- Exact Levenshtein edit distance (insertions, deletions, substitutions
at unit cost) by the textbook row-by-row dynamic program.  This models the
external `Levenshtein.distance` library call made by
`find_closest_fens_naive`. -/
def levenshtein (a b : List Char) : Nat :=
  (a.foldl (levRow b) (List.range (b.length + 1))).getLastD 0

/-- `Levenshtein.distance` on strings. -/
def levDistance (a b : String) : Nat :=
  levenshtein a.toList b.toList

/-- Insert `x` into a list after every element of strictly smaller key and
before the first element of greater-or-equal key.  Together with `sortKey`
this models Python `list.sort(key=...)`, which is a stable sort. -/
def insertKey {α β : Type} [LinearOrder β] (key : α → β) (x : α) :
    List α → List α
  | [] => [x]
  | y :: ys => if key x ≤ key y then x :: y :: ys else y :: insertKey key x ys

/-- Stable sort by a key into a linear order: model of Python
`list.sort(key=...)`. -/
def sortKey {α β : Type} [LinearOrder β] (key : α → β) : List α → List α
  | [] => []
  | x :: xs => insertKey key x (sortKey key xs)

/-- The `distances` list built by the scan loop of
`find_closest_fens_naive` (lines 46-49): every corpus record paired with
its Levenshtein distance to the query, in corpus order. -/
def scoredCorpus (query_dotted_fen : String)
    (all_fens_data : List FenRecord) : List (Nat × FenRecord) :=
  all_fens_data.map fun record =>
    (levDistance query_dotted_fen record.dotted_fen, record)

/-- Embedding of `find_closest_fens_naive` (`fen_retriever.py` lines
37-54): after the `if not all_fens_data` guard, pair every record with its
Levenshtein distance to the query, sort by distance (`distances.sort(key=
lambda x: x[0])`, a stable sort) and keep the first `top_n` entries. -/
def find_closest_fens_naive (query_dotted_fen : String)
    (all_fens_data : List FenRecord) (top_n : Nat) : List (Nat × FenRecord) :=
  if all_fens_data = [] then []
  else
    let distances := scoredCorpus query_dotted_fen all_fens_data
    (sortKey (fun x => x.1) distances).take top_n

/-- Per-key aggregation state of `rank_studies_for_game`: the Python dict
value `{'distances': [], 'ply_indices_matched': set()}`. -/
structure RelevanceData where
  distances : List Nat
  ply_indices_matched : Finset Nat
  deriving DecidableEq

/-- The insertion-ordered dictionary `study_chapter_relevance`, keyed by
`(study_id, chapter)`. -/
abbrev RelevanceMap := List ((String × String) × RelevanceData)

/-- One accumulator update of `rank_studies_for_game` (lines 105-111): for
a hit `(dist, record)` at query ply `ply`, append `dist` to the distance
list of the key and add `ply` to its matched-ply-index set; a key seen for
the first time is appended at the end, and an existing key is updated in
place (Python dicts preserve insertion order). -/
def updateRelevance (key : String × String) (dist ply : Nat) :
    RelevanceMap → RelevanceMap
  | [] => [(key, ⟨[dist], {ply}⟩)]
  | kv :: rest =>
    if kv.1 = key then
      (kv.1, ⟨kv.2.distances ++ [dist], insert ply kv.2.ply_indices_matched⟩)
        :: rest
    else kv :: updateRelevance key dist ply rest

/-- Output record of the ranker, with the Python float average modelled as
an exact rational. -/
structure RankedEntry where
  study_id : String
  chapter : String
  average_distance : ℚ
  distinct_ply_matches : Nat
  total_close_references : Nat
  deriving DecidableEq

/-- The final sort key of `rank_studies_for_game` (line 138): the Python
tuple `(-x['distinct_ply_matches'], x['average_distance'])` compared
lexicographically. -/
def rankedKey (e : RankedEntry) : Lex (Int × ℚ) :=
  toLex (-(e.distinct_ply_matches : Int), e.average_distance)

/-- The accumulation loop of `rank_studies_for_game` (lines 96-111): walk
the enumerated query plies, skip a ply whose FEN encodes to the empty
string, and fold every `(dist, record)` hit of `find_closest_fens_naive`
into the relevance dictionary. -/
def buildRelevance (user_game_fens_list : List String)
    (all_fens_data : List FenRecord) (top_n_ply_matches : Nat) :
    RelevanceMap :=
  user_game_fens_list.enum.foldl
    (fun acc p =>
      let user_dotted_fen := convert_fen_to_dotted_pieces p.2
      if user_dotted_fen = "" then acc
      else
        (find_closest_fens_naive user_dotted_fen all_fens_data
            top_n_ply_matches).foldl
          (fun acc m =>
            updateRelevance (m.2.study_id, m.2.chapter) m.1 p.1 acc)
          acc)
    []

/-- The emission loop of `rank_studies_for_game` (lines 118-134): one
`RankedEntry` per accumulator key, skipping keys with an empty distance
list (the `if not data['distances']` check). -/
def emitEntries (study_chapter_relevance : RelevanceMap) : List RankedEntry :=
  study_chapter_relevance.filterMap fun kv =>
    if kv.2.distances = [] then none
    else some
      { study_id := kv.1.1
        chapter := kv.1.2
        average_distance :=
          Rat.divInt kv.2.distances.sum kv.2.distances.length
        distinct_ply_matches := kv.2.ply_indices_matched.card
        total_close_references := kv.2.distances.length }

/-- Embedding of `rank_studies_for_game` (`fen_retriever.py` lines
81-140): guard empty inputs, accumulate per-ply hits, guard an empty
accumulator, emit one entry per key and stably sort by
`(-distinct_ply_matches, average_distance)`. -/
def rank_studies_for_game (user_game_fens_list : List String)
    (all_fens_data : List FenRecord) (top_n_ply_matches : Nat) :
    List RankedEntry :=
  if all_fens_data = [] ∨ user_game_fens_list = [] then []
  else
    let study_chapter_relevance :=
      buildRelevance user_game_fens_list all_fens_data top_n_ply_matches
    if study_chapter_relevance = [] then []
    else sortKey rankedKey (emitEntries study_chapter_relevance)

/-- Look a key up in the relevance dictionary. -/
def lookupRelevance (key : String × String) :
    RelevanceMap → Option RelevanceData
  | [] => none
  | kv :: rest => if kv.1 = key then some kv.2 else lookupRelevance key rest

/-- The flattened stream of accumulator updates performed by
`rank_studies_for_game`: one `(key, distance, ply index)` event per
`(dist, record)` hit of each query ply whose FEN does not encode to the
empty string. -/
def relevanceEvents (user_game_fens_list : List String)
    (all_fens_data : List FenRecord) (top_n_ply_matches : Nat) :
    List ((String × String) × Nat × Nat) :=
  user_game_fens_list.enum.flatMap fun p =>
    let user_dotted_fen := convert_fen_to_dotted_pieces p.2
    if user_dotted_fen = "" then []
    else
      (find_closest_fens_naive user_dotted_fen all_fens_data
          top_n_ply_matches).map
        fun m => ((m.2.study_id, m.2.chapter), m.1, p.1)

/-- Distances accumulated for one key by a stream of update events, in
arrival order. -/
def keyDists (key : String × String)
    (es : List ((String × String) × Nat × Nat)) : List Nat :=
  (es.filter fun e => decide (e.1 = key)).map fun e => e.2.1

/-- Distinct query-ply indices accumulated for one key by a stream of
update events. -/
def keyPlies (key : String × String)
    (es : List ((String × String) × Nat × Nat)) : Finset Nat :=
  ((es.filter fun e => decide (e.1 = key)).map fun e => e.2.2).toFinset

/-- The `(distance, ply index)` hits that `rank_studies_for_game`
accumulates under one `(study_id, chapter)` key for a given query game and
corpus. -/
def keyHits (user_game_fens_list : List String)
    (all_fens_data : List FenRecord) (top_n_ply_matches : Nat)
    (key : String × String) : List (Nat × Nat) :=
  ((relevanceEvents user_game_fens_list all_fens_data
      top_n_ply_matches).filter fun e => decide (e.1 = key)).map
    fun e => e.2

/-!
Corpus construction (`fen_processor.py`).  The PGN parsing done by the
external `python-chess` library inside `process_single_study_data` is
abstracted as a stream of per-chapter outcomes: a chapter either parses
completely or raises partway through, after some prefix of its records was
already appended.  Everything after the stream is handed over — the
accumulation of records and chapter texts, the `try/except` recovery that
returns the partial lists, the diagnostic, and the merge across studies —
is embedded from the source.
-/

/-- Outcome of parsing one chapter of a study PGN, as seen by the loop
body of `process_single_study_data`: `ok` carries the chapter identifier,
its extracted comment text and its per-ply records; `err` models an
exception raised partway through, carrying the records already appended
before the failure, the chapter text if it had already been stored, and
the chapter context string the diagnostic will show. -/
inductive ChapterParse where
  | ok (identifier : String) (text : String) (records : List FenRecord)
  | err (context : String) (text : Option (String × String))
      (records : List FenRecord)
  deriving DecidableEq

/-- Result of `process_single_study_data` for one study: the tuple
`(list_of_fen_records, chapter_texts_map_for_this_study)` returned by the
Python function, plus the diagnostic printed by the `except` handler
(`None` when no exception occurred). -/
structure StudyResult where
  records : List FenRecord
  texts : List (String × String)
  diagnosis : Option (String × String)
  deriving DecidableEq

/-- Embedding of `process_single_study_data` (`fen_processor.py` lines
28-112): chapters are processed in order, each contributing its text-map
entry and its records; on the first failure the `except` handler (lines
106-110) returns whatever was accumulated so far — including the failing
chapter records produced before the failure point — together with a
diagnostic naming the study and the chapter context, and the remaining
chapters of this study are skipped. -/
def process_single_study_data (study_id : String) :
    List ChapterParse → StudyResult
  | [] => ⟨[], [], none⟩
  | .ok iden text recs :: rest =>
    let r := process_single_study_data study_id rest
    ⟨recs ++ r.records, (iden, text) :: r.texts, r.diagnosis⟩
  | .err ctx otext recs :: _ =>
    ⟨recs, otext.toList, some (study_id, ctx)⟩

/-- The merge loop of `fen_processor.main` (lines 135-144): the record
batches of all studies are appended into one corpus; a study is a pair of
its `study_id` and its parsed chapter stream. -/
def buildCorpus (studies : List (String × List ChapterParse)) :
    List FenRecord :=
  studies.flatMap fun s => (process_single_study_data s.1 s.2).records

/-- A corpus record with the given encoded form, study and chapter. -/
def mkSampleRecord (df si ch : String) : FenRecord :=
  ⟨df, si, ch, 0, df⟩

/-- Concrete corpus realising the breadth-beats-closeness scenario: study
`A` offers a distance-2 match for query plies 0-2, study `B` a distance-5
match for all five plies, and study `D` a distance-1 match for plies 3-4. -/
def sampleCorpus : List FenRecord :=
  [ mkSampleRecord "yyaaaaaa" "A" "ch", mkSampleRecord "yybbbbbb" "A" "ch",
    mkSampleRecord "yycccccc" "A" "ch", mkSampleRecord "aaazzzzz" "B" "ch",
    mkSampleRecord "bbbzzzzz" "B" "ch", mkSampleRecord "ccczzzzz" "B" "ch",
    mkSampleRecord "dddzzzzz" "B" "ch", mkSampleRecord "eeezzzzz" "B" "ch",
    mkSampleRecord "yddddddd" "D" "ch", mkSampleRecord "yeeeeeee" "D" "ch" ]

/-- Concrete five-ply query game for the breadth-beats-closeness
scenario; each FEN encodes to its eight-letter placement field. -/
def sampleGameFens : List String :=
  ["aaaaaaaa w", "bbbbbbbb w", "cccccccc w", "dddddddd w", "eeeeeeee w"]

/-! ### Lemmas about the stable sort -/

section SortLemmas

variable {α β : Type} [LinearOrder β] (key : α → β)

theorem insertKey_perm (x : α) (l : List α) :
    (insertKey key x l).Perm (x :: l) := by
  induction l with
  | nil => simp [insertKey]
  | cons y ys ih =>
    rw [insertKey]
    split
    · exact List.Perm.refl _
    · exact (ih.cons y).trans (List.Perm.swap x y ys)

theorem sortKey_perm (l : List α) : (sortKey key l).Perm l := by
  induction l with
  | nil => simp [sortKey]
  | cons x xs ih => exact (insertKey_perm key x _).trans (ih.cons x)

theorem sortKey_length (l : List α) : (sortKey key l).length = l.length :=
  (sortKey_perm key l).length_eq

theorem sortKey_mem {a : α} {l : List α} : a ∈ sortKey key l ↔ a ∈ l :=
  (sortKey_perm key l).mem_iff

theorem insertKey_pairwise {x : α} {l : List α}
    (hl : l.Pairwise fun a b => key a ≤ key b) :
    (insertKey key x l).Pairwise fun a b => key a ≤ key b := by
  induction l with
  | nil => simp [insertKey]
  | cons y ys ih =>
    rw [List.pairwise_cons] at hl
    obtain ⟨hy, hys⟩ := hl
    rw [insertKey]
    split
    · rename_i h
      rw [List.pairwise_cons]
      refine ⟨?_, List.pairwise_cons.mpr ⟨hy, hys⟩⟩
      intro b hb
      rcases List.mem_cons.mp hb with rfl | hb
      · exact h
      · exact h.trans (hy b hb)
    · rename_i h
      rw [List.pairwise_cons]
      refine ⟨?_, ih hys⟩
      intro b hb
      have hb' := (insertKey_perm key x ys).mem_iff.mp hb
      rcases List.mem_cons.mp hb' with rfl | hb'
      · exact (lt_of_not_le h).le
      · exact hy b hb'

theorem sortKey_pairwise (l : List α) :
    (sortKey key l).Pairwise fun a b => key a ≤ key b := by
  induction l with
  | nil => simp [sortKey]
  | cons x xs ih => exact insertKey_pairwise key ih

theorem insertKey_filter (x : α) (l : List α) (d : β) :
    (insertKey key x l).filter (fun a => decide (key a = d)) =
      if key x = d then x :: l.filter (fun a => decide (key a = d))
      else l.filter (fun a => decide (key a = d)) := by
  induction l with
  | nil => by_cases hd : key x = d <;> simp [insertKey, List.filter, hd]
  | cons y ys ih =>
    rw [insertKey]
    split
    · rename_i h
      by_cases hd : key x = d <;> simp [List.filter_cons, hd]
    · rename_i h
      by_cases hd : key x = d
      · have hy : ¬ key y = d := fun hyd =>
          h (hd ▸ hyd ▸ le_refl (key y))
        simp [List.filter_cons, hd, hy, ih]
      · simp [List.filter_cons, hd, ih]

theorem sortKey_filter (l : List α) (d : β) :
    (sortKey key l).filter (fun a => decide (key a = d)) =
      l.filter (fun a => decide (key a = d)) := by
  induction l with
  | nil => rfl
  | cons x xs ih =>
    rw [sortKey, insertKey_filter]
    by_cases hd : key x = d <;> simp [List.filter_cons, hd, ih]

end SortLemmas

/-! ### The similarity matcher -/

theorem levenshtein_nil (b : List Char) : levenshtein [] b = b.length := by
  rw [levenshtein, List.foldl_nil, List.range_succ, List.getLastD_concat]

theorem levDistance_empty (s : String) : levDistance "" s = s.length := by
  rw [levDistance, show ("" : String).toList = [] from rfl, levenshtein_nil]
  rfl

/-- C2: for every query, corpus and `top_n`, the list returned by
`find_closest_fens_naive` has non-decreasing distances, and for each
distance value the returned entries with that distance form a prefix of
the equal-distance entries of the scored corpus, i.e. ties keep corpus
insertion order. -/
theorem find_closest_sorted_and_stable (query_dotted_fen : String)
    (all_fens_data : List FenRecord) (top_n : Nat) :
    (find_closest_fens_naive query_dotted_fen all_fens_data top_n).Pairwise
        (fun x y => x.1 ≤ y.1) ∧
      ∀ d : Nat,
        (find_closest_fens_naive query_dotted_fen all_fens_data top_n).filter
            (fun x => decide (x.1 = d)) <+:
          (scoredCorpus query_dotted_fen all_fens_data).filter
            (fun x => decide (x.1 = d)) := by
  unfold find_closest_fens_naive
  split
  · simp
  · dsimp only
    constructor
    · exact List.Pairwise.sublist (List.take_sublist _ _)
        (sortKey_pairwise (fun x : Nat × FenRecord => x.1) _)
    · intro d
      have h1 := (List.take_prefix top_n
        (sortKey (fun x : Nat × FenRecord => x.1)
          (scoredCorpus query_dotted_fen all_fens_data))).filter
        (fun x => decide (x.1 = d))
      rwa [sortKey_filter] at h1

/-- C8: for every query, corpus and positive `top_k`, the result of
`find_closest_fens_naive` has exactly `min top_k corpus.length` entries,
and when `top_k` is at least the corpus size it is the whole scored corpus
sorted by distance. -/
theorem find_closest_topk (query_dotted_fen : String)
    (all_fens_data : List FenRecord) (top_k : Nat) (_hpos : 0 < top_k) :
    (find_closest_fens_naive query_dotted_fen all_fens_data top_k).length =
        min top_k all_fens_data.length ∧
      (all_fens_data.length ≤ top_k →
        find_closest_fens_naive query_dotted_fen all_fens_data top_k =
          sortKey (fun x => x.1)
            (scoredCorpus query_dotted_fen all_fens_data)) := by
  unfold find_closest_fens_naive
  split
  · rename_i h
    subst h
    simp [scoredCorpus, sortKey]
  · dsimp only
    constructor
    · rw [List.length_take, sortKey_length]
      rw [scoredCorpus, List.length_map]
    · intro hle
      apply List.take_of_length_le
      rw [sortKey_length, scoredCorpus, List.length_map]
      exact hle

/-- Witness for C8 at a concrete input: one record, `top_k = 3`. -/
theorem find_closest_topk_witness :
    (find_closest_fens_naive "ab" [mkSampleRecord "abc" "s" "c"] 3).length =
        min 3 ([mkSampleRecord "abc" "s" "c"] : List FenRecord).length ∧
      (([mkSampleRecord "abc" "s" "c"] : List FenRecord).length ≤ 3 →
        find_closest_fens_naive "ab" [mkSampleRecord "abc" "s" "c"] 3 =
          sortKey (fun x => x.1)
            (scoredCorpus "ab" [mkSampleRecord "abc" "s" "c"])) :=
  find_closest_topk "ab" [mkSampleRecord "abc" "s" "c"] 3 (by decide)

/-- C5 counterexample: on the empty query string with a non-empty corpus,
`find_closest_fens_naive` does compute matches — here it returns the
single corpus record at distance 1 — instead of returning an empty
result. -/
theorem find_closest_empty_query_cex :
    find_closest_fens_naive "" [mkSampleRecord "a" "s" "c"] 1 =
        [(1, mkSampleRecord "a" "s" "c")] ∧
      find_closest_fens_naive "" [mkSampleRecord "a" "s" "c"] 1 ≠ [] := by
  decide

/-- C5 amended: an empty corpus yields an empty result for every query,
but an empty query string is not guarded: distances are still computed
(the distance to each record is the length of its encoded form) and the
first `top_n` sorted records are returned. -/
theorem find_closest_empty_inputs :
    (∀ (query_dotted_fen : String) (top_n : Nat),
        find_closest_fens_naive query_dotted_fen [] top_n = []) ∧
      ∀ (all_fens_data : List FenRecord) (top_n : Nat),
        find_closest_fens_naive "" all_fens_data top_n =
          (sortKey (fun x => x.1)
            (all_fens_data.map fun record =>
              (record.dotted_fen.length, record))).take top_n := by
  constructor
  · intro q n
    rfl
  · intro all_fens_data n
    unfold find_closest_fens_naive
    split
    · rename_i h
      subst h
      simp [sortKey]
    · dsimp only
      rw [scoredCorpus]
      simp only [levDistance_empty]

/-! ### The position encoder -/

/-- C4 counterexample: encoding the standard starting position does not
yield a 64-symbol string — the `/` rank separators of the placement field
are copied through, giving 71 symbols. -/
theorem convert_start_fen_cex :
    (convert_fen_to_dotted_pieces
      "rnbqkbnr/pppppppp/8/8/8/8/PPPPPPPP/RNBQKBNR w KQkq - 0 1").length
      ≠ 64 := by
  decide

/-- C4 amended: encoding the standard starting position yields the
71-symbol string whose eight ranks read `rnbqkbnr`, `pppppppp`, four ranks
of eight dots, `PPPPPPPP`, `RNBQKBNR`, joined by `/` separators. -/
theorem convert_start_fen :
    convert_fen_to_dotted_pieces
        "rnbqkbnr/pppppppp/8/8/8/8/PPPPPPPP/RNBQKBNR w KQkq - 0 1" =
      "rnbqkbnr/pppppppp/......../......../......../......../PPPPPPPP/RNBQKBNR" ∧
    (convert_fen_to_dotted_pieces
      "rnbqkbnr/pppppppp/8/8/8/8/PPPPPPPP/RNBQKBNR w KQkq - 0 1").length
      = 71 := by
  decide

/-- C6 counterexample: malformed inputs do not fail with an
`EncodingError` — a wrong square count (an 8-square placement) and
unrecognized symbols (`?`, `!`) are silently accepted and copied
through. -/
theorem convert_malformed_cex :
    convert_fen_to_dotted_pieces "pppppppp w - - 0 1" = "pppppppp" ∧
    convert_fen_to_dotted_pieces "?!k3? w KQkq - 0 1" = "?!k...?" := by
  decide

/-- C6 amended: the encoder performs no validation and never fails: each
digit of the placement field contributes that many placeholder dots, every
other character contributes itself, so the output length is the
digit-expanded length of whatever placement text was supplied — a
malformed snapshot silently yields a wrong-length string. -/
theorem convert_length_formula (full_fen_string : String) :
    (convert_fen_to_dotted_pieces full_fen_string).length =
      ((full_fen_string.toList.takeWhile fun c => c != ' ').map
        (fun c => if c.isDigit then c.toNat - 48 else 1)).sum := by
  have h : ∀ l : List Char,
      (l.flatMap fun c =>
        if c.isDigit then List.replicate (c.toNat - 48) '.' else [c]).length =
      (l.map fun c => if c.isDigit then c.toNat - 48 else 1).sum := by
    intro l
    induction l with
    | nil => rfl
    | cons c cs ih =>
      rw [List.flatMap_cons, List.length_append, ih, List.map_cons,
        List.sum_cons]
      congr 1
      split <;> simp
  rw [convert_fen_to_dotted_pieces]
  split
  · rename_i hfen
    subst hfen
    rfl
  · dsimp only
    exact h _

/-! ### The study ranker: accumulator characterisation -/

/-- One accumulator update viewed as a step function over the flattened
event stream. -/
def stepRelevance (acc : RelevanceMap)
    (e : (String × String) × Nat × Nat) : RelevanceMap :=
  updateRelevance e.1 e.2.1 e.2.2 acc

/-- The effect of one hit on the value stored for its key. -/
def pushHit (dist ply : Nat) : Option RelevanceData → RelevanceData
  | none => ⟨[dist], {ply}⟩
  | some v => ⟨v.distances ++ [dist], insert ply v.ply_indices_matched⟩

/-- The combined effect of a batch of hits on the value stored for a
key. -/
def accumHits (ds : List Nat) (ps : Finset Nat) :
    Option RelevanceData → Option RelevanceData
  | none => if ds = [] then none else some ⟨ds, ps⟩
  | some v => some ⟨v.distances ++ ds, v.ply_indices_matched ∪ ps⟩

theorem foldl_flatMap {α β γ : Type} (f : γ → β → γ) (g : α → List β)
    (l : List α) (init : γ) :
    (l.flatMap g).foldl f init =
      l.foldl (fun acc x => (g x).foldl f acc) init := by
  induction l generalizing init with
  | nil => rfl
  | cons x xs ih =>
    rw [List.flatMap_cons, List.foldl_append, List.foldl_cons, ih]

/-- The nested accumulation loop of `rank_studies_for_game` equals one
fold of `stepRelevance` over the flattened event stream. -/
theorem buildRelevance_eq (user_game_fens_list : List String)
    (all_fens_data : List FenRecord) (top_n_ply_matches : Nat) :
    buildRelevance user_game_fens_list all_fens_data top_n_ply_matches =
      (relevanceEvents user_game_fens_list all_fens_data
        top_n_ply_matches).foldl stepRelevance [] := by
  rw [buildRelevance, relevanceEvents, foldl_flatMap]
  congr 1
  funext acc p
  dsimp only
  by_cases hd : convert_fen_to_dotted_pieces p.2 = ""
  · simp [hd]
  · simp [hd, List.foldl_map, stepRelevance]

theorem lookupRelevance_update (key k : String × String) (dist ply : Nat)
    (acc : RelevanceMap) :
    lookupRelevance key (updateRelevance k dist ply acc) =
      if k = key then some (pushHit dist ply (lookupRelevance key acc))
      else lookupRelevance key acc := by
  induction acc with
  | nil =>
    by_cases h : k = key <;>
      simp [updateRelevance, lookupRelevance, pushHit, h]
  | cons kv rest ih =>
    rw [updateRelevance]
    by_cases h1 : kv.1 = k
    · rw [if_pos h1]
      by_cases h2 : k = key
      · have h3 : kv.1 = key := h1.trans h2
        simp [lookupRelevance, h2, h3, pushHit]
      · have h3 : ¬ kv.1 = key := fun he => h2 (h1 ▸ he)
        simp [lookupRelevance, h2, h3]
    · rw [if_neg h1]
      by_cases h3 : kv.1 = key
      · have h2 : ¬ k = key := fun he => h1 (h3.trans he.symm)
        simp [lookupRelevance, h3, h2]
      · simp [lookupRelevance, h3, ih]

theorem keyDists_cons (key : String × String)
    (e : (String × String) × Nat × Nat)
    (es : List ((String × String) × Nat × Nat)) :
    keyDists key (e :: es) =
      if e.1 = key then e.2.1 :: keyDists key es else keyDists key es := by
  by_cases h : e.1 = key <;> simp [keyDists, List.filter_cons, h]

theorem keyPlies_cons (key : String × String)
    (e : (String × String) × Nat × Nat)
    (es : List ((String × String) × Nat × Nat)) :
    keyPlies key (e :: es) =
      if e.1 = key then insert e.2.2 (keyPlies key es)
      else keyPlies key es := by
  by_cases h : e.1 = key <;> simp [keyPlies, List.filter_cons, h]

/-- Fold characterisation of the accumulator: what a fold of the event
stream stores for a key is exactly the batch of that key's distances and
ply indices, merged onto whatever the initial accumulator stored. -/
theorem lookupRelevance_foldl (es : List ((String × String) × Nat × Nat))
    (acc : RelevanceMap) (key : String × String) :
    lookupRelevance key (es.foldl stepRelevance acc) =
      accumHits (keyDists key es) (keyPlies key es)
        (lookupRelevance key acc) := by
  induction es generalizing acc with
  | nil =>
    cases h : lookupRelevance key acc <;>
      simp [keyDists, keyPlies, accumHits, h]
  | cons e rest ih =>
    rw [List.foldl_cons, ih, stepRelevance, lookupRelevance_update,
      keyDists_cons, keyPlies_cons]
    by_cases he : e.1 = key
    · rw [if_pos he, if_pos he, if_pos he]
      cases h : lookupRelevance key acc
      · cases hr : keyDists key rest <;>
          simp [pushHit, accumHits, hr, Finset.insert_eq]
      · cases hr : keyDists key rest <;>
          simp [pushHit, accumHits, hr, Finset.union_insert,
            Finset.insert_union]
    · rw [if_neg he, if_neg he, if_neg he]

theorem updateRelevance_keys (k : String × String) (dist ply : Nat)
    (acc : RelevanceMap) :
    (updateRelevance k dist ply acc).map Prod.fst =
      if k ∈ acc.map Prod.fst then acc.map Prod.fst
      else acc.map Prod.fst ++ [k] := by
  induction acc with
  | nil => simp [updateRelevance]
  | cons kv rest ih =>
    rw [updateRelevance]
    by_cases h : kv.1 = k
    · simp [h]
    · have h' : ¬ k = kv.1 := fun he => h he.symm
      by_cases hmem : k ∈ rest.map Prod.fst <;>
        simp [h, h', hmem, ih]

theorem updateRelevance_keys_nodup {acc : RelevanceMap}
    (h : (acc.map Prod.fst).Nodup) (k : String × String) (dist ply : Nat) :
    ((updateRelevance k dist ply acc).map Prod.fst).Nodup := by
  rw [updateRelevance_keys]
  split
  · exact h
  · rename_i hk
    simp [List.nodup_append, h, hk]

theorem foldl_stepRelevance_keys_nodup
    (es : List ((String × String) × Nat × Nat)) (acc : RelevanceMap)
    (h : (acc.map Prod.fst).Nodup) :
    ((es.foldl stepRelevance acc).map Prod.fst).Nodup := by
  induction es generalizing acc with
  | nil => exact h
  | cons e rest ih => exact ih _ (updateRelevance_keys_nodup h _ _ _)

theorem lookupRelevance_of_mem {acc : RelevanceMap}
    {kv : (String × String) × RelevanceData}
    (hnd : (acc.map Prod.fst).Nodup) (hmem : kv ∈ acc) :
    lookupRelevance kv.1 acc = some kv.2 := by
  induction acc with
  | nil => cases hmem
  | cons hd rest ih =>
    rw [lookupRelevance]
    rcases List.mem_cons.mp hmem with rfl | hmem'
    · simp
    · rw [List.map_cons, List.nodup_cons] at hnd
      have h1 : ¬ hd.1 = kv.1 := fun he =>
        hnd.1 (he ▸ List.mem_map_of_mem Prod.fst hmem')
      rw [if_neg h1]
      exact ih hnd.2 hmem'

theorem keyHits_map_fst (user_game_fens_list : List String)
    (all_fens_data : List FenRecord) (top_n_ply_matches : Nat)
    (key : String × String) :
    (keyHits user_game_fens_list all_fens_data top_n_ply_matches key).map
        Prod.fst =
      keyDists key (relevanceEvents user_game_fens_list all_fens_data
        top_n_ply_matches) := by
  simp [keyHits, keyDists, List.map_map, Function.comp]

theorem keyHits_map_snd_toFinset (user_game_fens_list : List String)
    (all_fens_data : List FenRecord) (top_n_ply_matches : Nat)
    (key : String × String) :
    ((keyHits user_game_fens_list all_fens_data top_n_ply_matches key).map
        Prod.snd).toFinset =
      keyPlies key (relevanceEvents user_game_fens_list all_fens_data
        top_n_ply_matches) := by
  simp only [keyHits, keyPlies, List.map_map]
  rfl

theorem keyHits_length (user_game_fens_list : List String)
    (all_fens_data : List FenRecord) (top_n_ply_matches : Nat)
    (key : String × String) :
    (keyHits user_game_fens_list all_fens_data top_n_ply_matches
        key).length =
      (keyDists key (relevanceEvents user_game_fens_list all_fens_data
        top_n_ply_matches)).length := by
  simp [keyHits, keyDists]

theorem divInt_natCast (s n : Nat) :
    Rat.divInt (s : Int) (n : Int) = (s : ℚ) / (n : ℚ) := by
  rw [Rat.divInt_eq_div]
  push_cast
  ring

theorem keyHits_ply_lt {user_game_fens_list : List String}
    {all_fens_data : List FenRecord} {top_n_ply_matches : Nat}
    {key : String × String} {x : Nat × Nat}
    (hx : x ∈ keyHits user_game_fens_list all_fens_data top_n_ply_matches
      key) : x.2 < user_game_fens_list.length := by
  obtain ⟨ev, hev, rfl⟩ := List.mem_map.mp hx
  have hev' : ev ∈ relevanceEvents user_game_fens_list all_fens_data
      top_n_ply_matches := List.mem_of_mem_filter hev
  obtain ⟨p, hp, hin⟩ := List.mem_flatMap.mp hev'
  have hp0 : p ∈ user_game_fens_list.enumFrom 0 := hp
  have hp1 : p.1 < user_game_fens_list.length := by
    have := List.fst_lt_add_of_mem_enumFrom hp0
    simpa using this
  dsimp only at hin
  by_cases hd : convert_fen_to_dotted_pieces p.2 = ""
  · rw [if_pos hd] at hin
    cases hin
  · rw [if_neg hd] at hin
    obtain ⟨m, hm, rfl⟩ := List.mem_map.mp hin
    simpa using hp1

/-- Membership characterisation of the ranker output: every emitted entry
is the aggregation of exactly the hits accumulated under its
`(study_id, chapter)` key — a non-empty hit list whose mean distance,
distinct-ply count and hit count are the entry fields. -/
theorem rank_mem_spec {user_game_fens_list : List String}
    {all_fens_data : List FenRecord} {top_n_ply_matches : Nat}
    {e : RankedEntry}
    (he : e ∈ rank_studies_for_game user_game_fens_list all_fens_data
      top_n_ply_matches) :
    keyHits user_game_fens_list all_fens_data top_n_ply_matches
        (e.study_id, e.chapter) ≠ [] ∧
      e.average_distance =
        (((keyHits user_game_fens_list all_fens_data top_n_ply_matches
            (e.study_id, e.chapter)).map Prod.fst).sum : ℚ) /
          ((keyHits user_game_fens_list all_fens_data top_n_ply_matches
            (e.study_id, e.chapter)).length : ℚ) ∧
      e.distinct_ply_matches =
        ((keyHits user_game_fens_list all_fens_data top_n_ply_matches
          (e.study_id, e.chapter)).map Prod.snd).toFinset.card ∧
      e.total_close_references =
        (keyHits user_game_fens_list all_fens_data top_n_ply_matches
          (e.study_id, e.chapter)).length := by
  rw [rank_studies_for_game] at he
  split at he
  · cases he
  · dsimp only at he
    split at he
    · cases he
    · rename_i hacc
      rw [sortKey_mem, emitEntries, List.mem_filterMap] at he
      obtain ⟨kv, hkv, hsome⟩ := he
      split at hsome
      · cases hsome
      · rename_i hds
        have hnd : ((buildRelevance user_game_fens_list all_fens_data
            top_n_ply_matches).map Prod.fst).Nodup := by
          rw [buildRelevance_eq]
          exact foldl_stepRelevance_keys_nodup _ [] (by simp)
        have hlook := lookupRelevance_of_mem hnd hkv
        rw [buildRelevance_eq, lookupRelevance_foldl] at hlook
        have hbase : lookupRelevance kv.1 [] = none := rfl
        rw [hbase] at hlook
        simp only [accumHits] at hlook
        split at hlook
        · cases hlook
        · rename_i hdists
          have hv : kv.2 =
              ⟨keyDists kv.1 (relevanceEvents user_game_fens_list
                  all_fens_data top_n_ply_matches),
                keyPlies kv.1 (relevanceEvents user_game_fens_list
                  all_fens_data top_n_ply_matches)⟩ :=
            (Option.some.inj hlook).symm
          injection hsome with hse
          subst hse
          have hkey : ((kv.1.1 : String), (kv.1.2 : String)) = kv.1 := rfl
          dsimp only
          rw [hkey, hv]
          dsimp only
          refine ⟨?_, ?_, ?_, ?_⟩
          · intro hnil
            apply hdists
            rw [← keyHits_map_fst, hnil]
            rfl
          · rw [keyHits_map_fst, keyHits_length, divInt_natCast]
          · rw [keyHits_map_snd_toFinset]
          · rw [keyHits_length]

/-- C1: the ranker output is sorted with primary key
`distinct_ply_matches` descending and secondary key `average_distance`
ascending; in the concrete scenario, study `B` matching 5 of 5 query plies
at average distance 5 ranks above study `A` matching 3 of 5 plies at
average distance 2. -/
theorem rank_studies_sort_order :
    (∀ (user_game_fens_list : List String) (all_fens_data : List FenRecord)
        (top_n_ply_matches : Nat),
        (rank_studies_for_game user_game_fens_list all_fens_data
            top_n_ply_matches).Pairwise fun x y =>
          y.distinct_ply_matches < x.distinct_ply_matches ∨
            (x.distinct_ply_matches = y.distinct_ply_matches ∧
              x.average_distance ≤ y.average_distance)) ∧
      (rank_studies_for_game sampleGameFens sampleCorpus 2).map
          (fun e =>
            (e.study_id, e.distinct_ply_matches, e.average_distance)) =
        [("B", 5, (5 : ℚ)), ("A", 3, 2), ("D", 2, 1)] := by
  constructor
  · intro user_game_fens_list all_fens_data top_n_ply_matches
    rw [rank_studies_for_game]
    split
    · simp
    · dsimp only
      split
      · simp
      · refine List.Pairwise.imp ?_ (sortKey_pairwise rankedKey _)
        intro a b hab
        rw [rankedKey, rankedKey, Prod.Lex.le_iff] at hab
        rcases hab with h | ⟨h1, h2⟩
        · left
          have hneg := neg_lt_neg_iff.mp h
          exact_mod_cast hneg
        · right
          exact ⟨by exact_mod_cast neg_inj.mp h1, h2⟩
  · decide

/-- C3: every emitted entry aggregates exactly the hits accumulated under
its `(study_id, chapter)` key: the average distance is the mean of the hit
distances, the distinct-ply count is the number of distinct hit ply
indices, and the reference total is the number of hits; plies that encode
to the empty string contribute no hits. -/
theorem rank_entry_aggregation (user_game_fens_list : List String)
    (all_fens_data : List FenRecord) (top_n_ply_matches : Nat)
    (e : RankedEntry)
    (he : e ∈ rank_studies_for_game user_game_fens_list all_fens_data
      top_n_ply_matches) :
    keyHits user_game_fens_list all_fens_data top_n_ply_matches
        (e.study_id, e.chapter) ≠ [] ∧
      e.average_distance =
        (((keyHits user_game_fens_list all_fens_data top_n_ply_matches
            (e.study_id, e.chapter)).map Prod.fst).sum : ℚ) /
          ((keyHits user_game_fens_list all_fens_data top_n_ply_matches
            (e.study_id, e.chapter)).length : ℚ) ∧
      e.distinct_ply_matches =
        ((keyHits user_game_fens_list all_fens_data top_n_ply_matches
          (e.study_id, e.chapter)).map Prod.snd).toFinset.card ∧
      e.total_close_references =
        (keyHits user_game_fens_list all_fens_data top_n_ply_matches
          (e.study_id, e.chapter)).length :=
  rank_mem_spec he

/-- Witness for C3: the study `B` entry of the concrete scenario. -/
theorem rank_entry_aggregation_witness :
    ((⟨"B", "ch", 5, 5, 5⟩ : RankedEntry) ∈
        rank_studies_for_game sampleGameFens sampleCorpus 2) ∧
      (keyHits sampleGameFens sampleCorpus 2 ("B", "ch") ≠ [] ∧
        (5 : ℚ) =
          (((keyHits sampleGameFens sampleCorpus 2 ("B", "ch")).map
              Prod.fst).sum : ℚ) /
            ((keyHits sampleGameFens sampleCorpus 2 ("B", "ch")).length :
              ℚ) ∧
        (5 : Nat) =
          ((keyHits sampleGameFens sampleCorpus 2 ("B", "ch")).map
            Prod.snd).toFinset.card ∧
        (5 : Nat) =
          (keyHits sampleGameFens sampleCorpus 2 ("B", "ch")).length) :=
  ⟨by decide,
    rank_entry_aggregation sampleGameFens sampleCorpus 2
      ⟨"B", "ch", 5, 5, 5⟩ (by decide)⟩

/-- C9: `distinct_ply_matches` of every emitted entry never exceeds the
length of the query sequence. -/
theorem rank_distinct_le_query_length (user_game_fens_list : List String)
    (all_fens_data : List FenRecord) (top_n_ply_matches : Nat)
    (e : RankedEntry)
    (he : e ∈ rank_studies_for_game user_game_fens_list all_fens_data
      top_n_ply_matches) :
    e.distinct_ply_matches ≤ user_game_fens_list.length := by
  obtain ⟨-, -, hcard, -⟩ := rank_mem_spec he
  rw [hcard]
  have hsub : ((keyHits user_game_fens_list all_fens_data top_n_ply_matches
      (e.study_id, e.chapter)).map Prod.snd).toFinset ⊆
      Finset.range user_game_fens_list.length := by
    intro x hx
    rw [List.mem_toFinset] at hx
    obtain ⟨p, hp, rfl⟩ := List.mem_map.mp hx
    exact Finset.mem_range.mpr (keyHits_ply_lt hp)
  calc ((keyHits user_game_fens_list all_fens_data top_n_ply_matches
      (e.study_id, e.chapter)).map Prod.snd).toFinset.card
      ≤ (Finset.range user_game_fens_list.length).card :=
        Finset.card_le_card hsub
    _ = user_game_fens_list.length := Finset.card_range _

/-- Witness for C9: the study `A` entry matches 3 distinct plies of the
5-ply concrete query. -/
theorem rank_distinct_le_query_length_witness :
    ((⟨"A", "ch", 2, 3, 3⟩ : RankedEntry) ∈
        rank_studies_for_game sampleGameFens sampleCorpus 2) ∧
      (3 : Nat) ≤ sampleGameFens.length :=
  ⟨by decide,
    rank_distinct_le_query_length sampleGameFens sampleCorpus 2
      ⟨"A", "ch", 2, 3, 3⟩ (by decide)⟩

/-- C10: every emitted entry has `1 ≤ distinct_ply_matches` and
`distinct_ply_matches ≤ total_close_references`. -/
theorem rank_distinct_bounds (user_game_fens_list : List String)
    (all_fens_data : List FenRecord) (top_n_ply_matches : Nat)
    (e : RankedEntry)
    (he : e ∈ rank_studies_for_game user_game_fens_list all_fens_data
      top_n_ply_matches) :
    1 ≤ e.distinct_ply_matches ∧
      e.distinct_ply_matches ≤ e.total_close_references := by
  obtain ⟨hne, -, hcard, htot⟩ := rank_mem_spec he
  constructor
  · rw [hcard]
    obtain ⟨x, hx⟩ := List.exists_mem_of_ne_nil _ hne
    exact Finset.card_pos.mpr
      ⟨x.2, List.mem_toFinset.mpr (List.mem_map_of_mem Prod.snd hx)⟩
  · rw [hcard, htot]
    calc ((keyHits user_game_fens_list all_fens_data top_n_ply_matches
        (e.study_id, e.chapter)).map Prod.snd).toFinset.card
        ≤ ((keyHits user_game_fens_list all_fens_data top_n_ply_matches
            (e.study_id, e.chapter)).map Prod.snd).length :=
          List.toFinset_card_le _
      _ = (keyHits user_game_fens_list all_fens_data top_n_ply_matches
          (e.study_id, e.chapter)).length := by simp

/-- Witness for C10: the study `D` entry of the concrete scenario. -/
theorem rank_distinct_bounds_witness :
    ((⟨"D", "ch", 1, 2, 2⟩ : RankedEntry) ∈
        rank_studies_for_game sampleGameFens sampleCorpus 2) ∧
      ((1 : Nat) ≤ 2 ∧ (2 : Nat) ≤ 2) :=
  ⟨by decide,
    rank_distinct_bounds sampleGameFens sampleCorpus 2
      ⟨"D", "ch", 1, 2, 2⟩ (by decide)⟩

/-! ### Corpus build partial-failure tolerance -/

theorem process_err_cons (study_id ctx : String)
    (otext : Option (String × String)) (recs : List FenRecord)
    (rest : List ChapterParse) :
    process_single_study_data study_id
        (ChapterParse.err ctx otext recs :: rest) =
      ⟨recs, otext.toList, some (study_id, ctx)⟩ := rfl

theorem process_ok_append (study_id : String)
    (good : List (String × String × List FenRecord))
    (tail : List ChapterParse) :
    process_single_study_data study_id
        ((good.map fun g => ChapterParse.ok g.1 g.2.1 g.2.2) ++ tail) =
      ⟨(good.flatMap fun g => g.2.2) ++
          (process_single_study_data study_id tail).records,
        (good.map fun g => (g.1, g.2.1)) ++
          (process_single_study_data study_id tail).texts,
        (process_single_study_data study_id tail).diagnosis⟩ := by
  induction good with
  | nil => rfl
  | cons g gs ih =>
    simp only [List.map_cons, List.cons_append, process_single_study_data,
      List.append_eq, ih, List.flatMap_cons, List.append_assoc]

/-- C7: when a chapter of one study fails to parse partway through, the
records of the preceding chapters and the prefix of records produced
before the failure point are all kept and returned, together with a
diagnostic naming the study and the failing chapter context; the failure
never prevents the records of any study from reaching the merged
corpus. -/
theorem corpus_partial_failure (study_id : String)
    (good : List (String × String × List FenRecord)) (ctx : String)
    (otext : Option (String × String)) (bad : List FenRecord)
    (rest : List ChapterParse)
    (studies : List (String × List ChapterParse)) :
    (process_single_study_data study_id
        ((good.map fun g => ChapterParse.ok g.1 g.2.1 g.2.2) ++
          ChapterParse.err ctx otext bad :: rest)).records =
        (good.flatMap fun g => g.2.2) ++ bad ∧
      (process_single_study_data study_id
          ((good.map fun g => ChapterParse.ok g.1 g.2.1 g.2.2) ++
            ChapterParse.err ctx otext bad :: rest)).diagnosis =
        some (study_id, ctx) ∧
      ∀ s ∈ studies, ∀ r ∈ (process_single_study_data s.1 s.2).records,
        r ∈ buildCorpus studies := by
  refine ⟨?_, ?_, ?_⟩
  · rw [process_ok_append, process_err_cons]
  · rw [process_ok_append, process_err_cons]
  · intro s hs r hr
    rw [buildCorpus]
    exact List.mem_flatMap.mpr ⟨s, hs, hr⟩

/-- Chapters of the sample failing study that parse completely before the
failure. -/
def sampleGoodChapters : List (String × String × List FenRecord) :=
  [("T - C1", "t1", [mkSampleRecord "aa" "s1" "T - C1"])]

/-- Records produced by the sample failing chapter before its failure
point. -/
def sampleBadRecords : List FenRecord :=
  [mkSampleRecord "bb" "s1" "T - C2"]

/-- Chapters of the sample failing study after the failure (skipped). -/
def sampleRestChapters : List ChapterParse :=
  [ChapterParse.ok "T - C3" "t3" [mkSampleRecord "cc" "s1" "T - C3"]]

/-- A two-study corpus input whose first study fails partway through its
second chapter. -/
def sampleStudies : List (String × List ChapterParse) :=
  [("s1",
    (sampleGoodChapters.map fun g => ChapterParse.ok g.1 g.2.1 g.2.2) ++
      ChapterParse.err "T - C2" none sampleBadRecords ::
        sampleRestChapters),
   ("s2", [ChapterParse.ok "U - C1" "u1"
     [mkSampleRecord "dd" "s2" "U - C1"]])]

/-- Witness for C7 at the concrete two-study input. -/
theorem corpus_partial_failure_witness :
    (process_single_study_data "s1"
        ((sampleGoodChapters.map fun g =>
            ChapterParse.ok g.1 g.2.1 g.2.2) ++
          ChapterParse.err "T - C2" none sampleBadRecords ::
            sampleRestChapters)).records =
        (sampleGoodChapters.flatMap fun g => g.2.2) ++ sampleBadRecords ∧
      (process_single_study_data "s1"
          ((sampleGoodChapters.map fun g =>
              ChapterParse.ok g.1 g.2.1 g.2.2) ++
            ChapterParse.err "T - C2" none sampleBadRecords ::
              sampleRestChapters)).diagnosis = some ("s1", "T - C2") ∧
      ∀ s ∈ sampleStudies,
        ∀ r ∈ (process_single_study_data s.1 s.2).records,
          r ∈ buildCorpus sampleStudies :=
  corpus_partial_failure "s1" sampleGoodChapters "T - C2" none
    sampleBadRecords sampleRestChapters sampleStudies

end ChessGPT
